import Mathlib

/-!
# Verification of the simplevectors core library

Shallow embedding of `svector::Vector<D, T>` (include/simplevectors/core/vector.hpp)
and its 2-D / 3-D specializations (vector2d.hpp, vector3d.hpp), with proofs of the
specification claims about them.

A vector is an ordered fixed-length sequence of `D` scalar components
(`std::array<T, D> m_components`), modelled as a function `Fin D → T`.
Scalars that the C++ code feeds through `<cmath>` (sqrt, sin, cos, acos) are
modelled as real numbers; purely algebraic operations stay polymorphic in `T`
exactly as the template is.
-/

namespace svector

/-- `svector::Vector<D, T>`: fixed-dimension vector holding `D` components of
scalar type `T` in `m_components` (`std::array<T, D>`). -/
structure Vector (D : Nat) (T : Type) where
  m_components : Fin D → T

theorem Vector.ext {D : Nat} {T : Type} {a b : Vector D T}
    (h : ∀ i, a.m_components i = b.m_components i) : a = b := by
  cases a
  cases b
  congr
  funext i
  exact h i

/-- The body of the initializer-list constructor loop
(`vector.hpp:85-93`): starting from the zero-filled array `comps` and a
`counter`, writes each list element at position `counter` and increments,
breaking as soon as `counter >= D`. -/
def fillLoop {T : Type} {D : Nat} : List T → Nat → (Fin D → T) → (Fin D → T)
  | [], _, comps => comps
  | num :: rest, counter, comps =>
    if D ≤ counter then comps
    else fillLoop rest (counter + 1) (fun j => if j.val = counter then num else comps j)

/-- `Vector::Vector(std::initializer_list<T>)` (`vector.hpp:81-94`): fills the
components with 0, then runs the fill loop from counter 0. -/
def Vector.fromInitList (D : Nat) {T : Type} [Zero T] (args : List T) : Vector D T :=
  ⟨fillLoop args 0 (fun _ => (0 : T))⟩

/-- Characterization of the constructor loop: component `i` receives list entry
`i.val - c` when the loop (started at counter `c`) reaches position `i`,
and is otherwise left as `comps i`. -/
theorem fillLoop_apply {T : Type} {D : Nat} (args : List T) (c : Nat)
    (comps : Fin D → T) (i : Fin D) :
    fillLoop args c comps i =
      if c ≤ i.val then args.getD (i.val - c) (comps i) else comps i := by
  induction args generalizing c comps with
  | nil => simp [fillLoop]
  | cons num rest ih =>
    by_cases hD : D ≤ c
    · have hci : ¬ c ≤ i.val := by
        have := i.isLt
        omega
      simp [fillLoop, hD, hci]
    · have hstep : fillLoop (num :: rest) c comps
          = fillLoop rest (c + 1) (fun j => if j.val = c then num else comps j) := by
        simp [fillLoop, hD]
      rw [hstep, ih]
      rcases Nat.lt_trichotomy i.val c with hlt | heq | hgt
      · have h1 : ¬ c + 1 ≤ i.val := by omega
        have h2 : ¬ c ≤ i.val := by omega
        have h3 : i.val ≠ c := by omega
        simp [h1, h2, h3]
      · have h1 : ¬ c + 1 ≤ i.val := by omega
        have h2 : c ≤ i.val := by omega
        simp [h1, h2, heq, Nat.sub_self]
      · have h1 : c + 1 ≤ i.val := by omega
        have h2 : c ≤ i.val := by omega
        have h3 : i.val ≠ c := by omega
        have h4 : i.val - c = (i.val - (c + 1)) + 1 := by omega
        simp [h1, h2, h3, h4, List.getD_cons_succ]

/-- C1: the initializer-list constructor fills components left-to-right with the
given values; unfilled trailing components stay 0 and values beyond the first D
are ignored (`args.getD i.val 0` is exactly this rule). In particular
`Vector<5>{3,5,2}` is `<3,5,2,0,0>` and `Vector<5>{3,5,2,3.5,6,39,2,6}` is
`<3,5,2,3.5,6>`. -/
theorem fromInitList_spec :
    (∀ (T : Type) [Zero T] (D : Nat) (args : List T) (i : Fin D),
      (Vector.fromInitList D args).m_components i = args.getD i.val 0)
    ∧ (Vector.fromInitList 5 [3, 5, 2] : Vector 5 ℚ).m_components = ![3, 5, 2, 0, 0]
    ∧ (Vector.fromInitList 5 [3, 5, 2, 3.5, 6, 39, 2, 6] : Vector 5 ℚ).m_components
        = ![3, 5, 2, 3.5, 6] := by
  refine ⟨?_, ?_, ?_⟩
  · intro T _ D args i
    show fillLoop args 0 (fun _ => (0 : T)) i = _
    rw [fillLoop_apply]
    simp
  · funext i
    fin_cases i <;> rfl
  · funext i
    fin_cases i <;> rfl

/-- The error kind of the checked accessor: `std::array::at` reports
`std::out_of_range` when the index is not below the dimension. -/
inductive VectorErr where
  | OutOfRange
deriving DecidableEq

/-- `Vector::at(std::size_t)` (`vector.hpp:497-510`): checked component access,
`m_components.at(index)` — returns the component when `index < D`, raises
`OutOfRange` otherwise.  (Named `atIndex` because `at` is a Lean keyword.) -/
def Vector.atIndex {D : Nat} {T : Type} (v : Vector D T) (i : Nat) : Except VectorErr T :=
  if h : i < D then Except.ok (v.m_components ⟨i, h⟩) else Except.error VectorErr.OutOfRange

/-- C2: `at(i)` raises `OutOfRange` iff `i ≥ D`, and on every valid index it
returns the same component that the unchecked `v[i]` reads.  The statement is
universally quantified over the vector value, so it holds after any sequence of
mutations (every mutation yields some vector value). -/
theorem atIndex_spec {D : Nat} {T : Type} (v : Vector D T) (i : Nat) :
    (v.atIndex i = Except.error VectorErr.OutOfRange ↔ D ≤ i)
    ∧ (∀ h : i < D, v.atIndex i = Except.ok (v.m_components ⟨i, h⟩)) := by
  constructor
  · unfold Vector.atIndex
    split
    · rename_i h
      constructor
      · intro hcontra
        exact absurd hcontra (by simp)
      · intro hge
        omega
    · rename_i h
      constructor
      · intro _
        omega
      · intro _
        rfl
  · intro h
    unfold Vector.atIndex
    simp [h]

/-- A concrete vector used to witness the checked-access spec. -/
def vAtW : Vector 2 ℚ := ⟨![7, 9]⟩

/-- Witness for C2 at `D = 2`, `v = <7, 9>`: `at 1` returns component 1 (= 9)
and `at 2` raises `OutOfRange`. -/
theorem atIndex_spec_witness :
    vAtW.atIndex 1 = Except.ok 9
    ∧ vAtW.atIndex 2 = Except.error VectorErr.OutOfRange := by
  constructor
  · have h := (atIndex_spec vAtW 1).2 (by omega)
    simpa [vAtW] using h
  · exact (atIndex_spec vAtW 2).1.mpr (by omega)

/-- `Vector::operator+` (`vector.hpp:183-190`): component-wise vector sum. -/
def Vector.add {D : Nat} {T : Type} [Add T] (a b : Vector D T) : Vector D T :=
  ⟨fun i => a.m_components i + b.m_components i⟩

/-- `Vector::operator-` binary (`vector.hpp:208-215`): component-wise difference. -/
def Vector.sub {D : Nat} {T : Type} [Sub T] (a b : Vector D T) : Vector D T :=
  ⟨fun i => a.m_components i - b.m_components i⟩

/-- `Vector::operator*` (`vector.hpp:230-237`): component-wise scalar product. -/
def Vector.mulScalar {D : Nat} {T : Type} [Mul T] (a : Vector D T) (other : T) : Vector D T :=
  ⟨fun i => a.m_components i * other⟩

/-- `Vector::operator/` (`vector.hpp:252-259`): component-wise scalar quotient. -/
def Vector.divScalar {D : Nat} {T : Type} [Div T] (a : Vector D T) (other : T) : Vector D T :=
  ⟨fun i => a.m_components i / other⟩

/-- `Vector::operator-()` unary (`vector.hpp:311-318`): component-wise negation. -/
def Vector.neg {D : Nat} {T : Type} [Neg T] (v : Vector D T) : Vector D T :=
  ⟨fun i => -v.m_components i⟩

/-- `Vector::operator+=` (`vector.hpp:344-350`): adds `other` into each component,
then `return *this`.  Modelled as the pair (state after the mutation, returned
value); `return *this` makes the returned value the mutated state itself. -/
def Vector.addAssign {D : Nat} {T : Type} [Add T] (a b : Vector D T) :
    Vector D T × Vector D T :=
  let s : Vector D T := ⟨fun i => a.m_components i + b.m_components i⟩
  (s, s)

/-- `Vector::operator-=` (`vector.hpp:359-365`). -/
def Vector.subAssign {D : Nat} {T : Type} [Sub T] (a b : Vector D T) :
    Vector D T × Vector D T :=
  let s : Vector D T := ⟨fun i => a.m_components i - b.m_components i⟩
  (s, s)

/-- `Vector::operator*=` (`vector.hpp:374-380`). -/
def Vector.mulAssign {D : Nat} {T : Type} [Mul T] (a : Vector D T) (other : T) :
    Vector D T × Vector D T :=
  let s : Vector D T := ⟨fun i => a.m_components i * other⟩
  (s, s)

/-- `Vector::operator/=` (`vector.hpp:389-395`). -/
def Vector.divAssign {D : Nat} {T : Type} [Div T] (a : Vector D T) (other : T) :
    Vector D T × Vector D T :=
  let s : Vector D T := ⟨fun i => a.m_components i / other⟩
  (s, s)

/-- C9: each in-place operator returns the mutated vector itself (`.2 = .1`:
the returned handle is the post-mutation state, i.e. `*this`), and the
post-mutation state equals the corresponding non-mutating component-wise
operation applied to the operands. -/
theorem inplace_ops_spec {D : Nat} {T : Type} [Add T] [Sub T] [Mul T] [Div T]
    (a b : Vector D T) (c : T) :
    ((a.addAssign b).2 = (a.addAssign b).1 ∧ (a.addAssign b).1 = a.add b)
    ∧ ((a.subAssign b).2 = (a.subAssign b).1 ∧ (a.subAssign b).1 = a.sub b)
    ∧ ((a.mulAssign c).2 = (a.mulAssign c).1 ∧ (a.mulAssign c).1 = a.mulScalar c)
    ∧ ((a.divAssign c).2 = (a.divAssign c).1 ∧ (a.divAssign c).1 = a.divScalar c) :=
  ⟨⟨rfl, rfl⟩, ⟨rfl, rfl⟩, ⟨rfl, rfl⟩, ⟨rfl, rfl⟩⟩

/-- `Vector::dot` (`vector.hpp:409-417`): starts from `result = 0` and
accumulates the pairwise component products. -/
def Vector.dot {D : Nat} {T : Type} [NonUnitalNonAssocSemiring T]
    (a b : Vector D T) : T :=
  ∑ i, a.m_components i * b.m_components i

/-- C10: the dot product is commutative for every pair of equal-dimension
vectors over a commutative scalar type. -/
theorem dot_comm {D : Nat} {T : Type} [CommRing T] (a b : Vector D T) :
    a.dot b = b.dot a := by
  unfold Vector.dot
  exact Finset.sum_congr rfl (fun i _ => mul_comm _ _)

/-- `Vector::Vector()` (`vector.hpp:67`): the default constructor fills every
component with 0 (the zero vector). -/
def Vector.zero (D : Nat) (T : Type) [Zero T] : Vector D T :=
  ⟨fun _ => (0 : T)⟩

/-- `Vector::magn` (`vector.hpp:426-434`): accumulates `i * i` over the
components and takes the square root. -/
noncomputable def Vector.magn {D : Nat} (v : Vector D ℝ) : ℝ :=
  Real.sqrt (∑ i, v.m_components i * v.m_components i)

/-- `Vector::normalize` (`vector.hpp:446`): `(*this) / this->magn()`. -/
noncomputable def Vector.normalize {D : Nat} (v : Vector D ℝ) : Vector D ℝ :=
  v.divScalar v.magn

/-- `Vector::isZero` (`vector.hpp:460`): `this->magn() == 0`. -/
def Vector.isZero {D : Nat} (v : Vector D ℝ) : Prop :=
  v.magn = 0

/-- C3: for every vector of non-zero magnitude, `normalize` is exactly the
component-wise division of the vector by its magnitude, and the normalized
vector has magnitude 1. -/
theorem normalize_spec {D : Nat} (v : Vector D ℝ) (hv : v.magn ≠ 0) :
    v.normalize = v.divScalar v.magn ∧ (v.normalize).magn = 1 := by
  constructor
  · rfl
  · have hS : (0 : ℝ) ≤ ∑ i, v.m_components i * v.m_components i :=
      Finset.sum_nonneg fun i _ => mul_self_nonneg _
    have hSne : (∑ i, v.m_components i * v.m_components i) ≠ 0 := by
      intro h0
      apply hv
      unfold Vector.magn
      rw [h0, Real.sqrt_zero]
    unfold Vector.magn Vector.normalize Vector.divScalar
    have hmm : v.magn * v.magn = ∑ i, v.m_components i * v.m_components i :=
      Real.mul_self_sqrt hS
    have hsum : (∑ i, (v.m_components i / v.magn) * (v.m_components i / v.magn))
        = (∑ i, v.m_components i * v.m_components i) / (v.magn * v.magn) := by
      rw [Finset.sum_div]
      exact Finset.sum_congr rfl fun i _ => (div_mul_div_comm _ _ _ _)
    simp only [hsum, hmm]
    rw [div_self hSne, Real.sqrt_one]

/-- A concrete vector `<3, 4>` used to witness the normalization spec. -/
def vNormW : Vector 2 ℝ := ⟨![3, 4]⟩

theorem vNormW_magn : vNormW.magn = 5 := by
  unfold Vector.magn
  rw [show (∑ i, vNormW.m_components i * vNormW.m_components i) = 25 by
    simp [vNormW, Fin.sum_univ_two]
    norm_num]
  rw [show (25 : ℝ) = 5 ^ 2 by norm_num]
  exact Real.sqrt_sq (by norm_num)

/-- Witness for C3 at `v = <3, 4>` (magnitude 5 ≠ 0): the normalized vector
has magnitude exactly 1. -/
theorem normalize_spec_witness :
    vNormW.magn ≠ 0 ∧ (vNormW.normalize).magn = 1 := by
  have hv : vNormW.magn ≠ 0 := by
    rw [vNormW_magn]
    norm_num
  exact ⟨hv, (normalize_spec vNormW hv).2⟩

/-- C7: `isZero` holds exactly when the magnitude is exactly 0; the
zero-dimension vector is always zero (its empty sum of squares makes the
magnitude 0), and the all-zero vector of any dimension has magnitude exactly 0. -/
theorem isZero_spec :
    (∀ (D : Nat) (v : Vector D ℝ), v.isZero ↔ v.magn = 0)
    ∧ (∀ v : Vector 0 ℝ, v.isZero)
    ∧ (∀ D : Nat, (Vector.zero D ℝ).magn = 0) := by
  refine ⟨fun D v => Iff.rfl, ?_, ?_⟩
  · intro v
    show v.magn = 0
    unfold Vector.magn
    rw [Finset.univ_eq_empty, Finset.sum_empty, Real.sqrt_zero]
  · intro D
    unfold Vector.magn Vector.zero
    simp

namespace Vector2D

/-- `Vector2D::Vector2D(double, double)` (`vector2d.hpp:33-36`): writes the two
components into positions 0 and 1. -/
noncomputable def mk2 (x y : ℝ) : Vector 2 ℝ :=
  ⟨![x, y]⟩

/-- `Vector2D::x()` (`vector2d.hpp:51`): `m_components[0]`. -/
def x (v : Vector 2 ℝ) : ℝ := v.m_components 0

/-- `Vector2D::y()` (`vector2d.hpp:63`): `m_components[1]`. -/
def y (v : Vector 2 ℝ) : ℝ := v.m_components 1

/-- `Vector2D::rotate(double)` (`vector2d.hpp:90-102`): applies the 2×2
rotation matrix and builds a new vector from the primed components. -/
noncomputable def rotate (v : Vector 2 ℝ) (ang : ℝ) : Vector 2 ℝ :=
  mk2 (x v * Real.cos ang - y v * Real.sin ang)
      (x v * Real.sin ang + y v * Real.cos ang)

end Vector2D

/-- C5: for every 2-D vector and every (unbounded) angle, `rotate` returns the
vector with components `(x·cosθ − y·sinθ, x·sinθ + y·cosθ)`; in particular
rotating `(1, 0)` by π/6 gives x-component within 0.001 of 0.866 and
y-component exactly 0.5. -/
theorem rotate2_spec :
    (∀ (v : Vector 2 ℝ) (θ : ℝ),
      Vector2D.x (Vector2D.rotate v θ)
          = Vector2D.x v * Real.cos θ - Vector2D.y v * Real.sin θ
      ∧ Vector2D.y (Vector2D.rotate v θ)
          = Vector2D.x v * Real.sin θ + Vector2D.y v * Real.cos θ)
    ∧ |Vector2D.x (Vector2D.rotate (Vector2D.mk2 1 0) (Real.pi / 6)) - 0.866| < 0.001
    ∧ Vector2D.y (Vector2D.rotate (Vector2D.mk2 1 0) (Real.pi / 6)) = 0.5 := by
  have hx1 : Vector2D.x (Vector2D.mk2 1 0) = 1 := rfl
  have hy0 : Vector2D.y (Vector2D.mk2 1 0) = 0 := rfl
  refine ⟨fun v θ => ⟨rfl, rfl⟩, ?_, ?_⟩
  · have hx : Vector2D.x (Vector2D.rotate (Vector2D.mk2 1 0) (Real.pi / 6))
        = Real.sqrt 3 / 2 := by
      show Vector2D.x (Vector2D.mk2 1 0) * Real.cos (Real.pi / 6)
          - Vector2D.y (Vector2D.mk2 1 0) * Real.sin (Real.pi / 6) = Real.sqrt 3 / 2
      rw [hx1, hy0, Real.cos_pi_div_six]
      ring
    rw [hx]
    have hlb : (1.73 : ℝ) < Real.sqrt 3 := by
      rw [show (1.73 : ℝ) = Real.sqrt (1.73 ^ 2) from
        (Real.sqrt_sq (by norm_num)).symm]
      exact Real.sqrt_lt_sqrt (by norm_num) (by norm_num)
    have hub : Real.sqrt 3 < 1.734 := by
      rw [show (1.734 : ℝ) = Real.sqrt (1.734 ^ 2) from
        (Real.sqrt_sq (by norm_num)).symm]
      exact Real.sqrt_lt_sqrt (by norm_num) (by norm_num)
    rw [abs_lt]
    constructor <;> nlinarith
  · show Vector2D.x (Vector2D.mk2 1 0) * Real.sin (Real.pi / 6)
        + Vector2D.y (Vector2D.mk2 1 0) * Real.cos (Real.pi / 6) = 0.5
    rw [hx1, hy0, Real.sin_pi_div_six]
    norm_num

/-- Modelled from the spec: the axis tag `svector::AngleDir` lives in
`core/units.hpp`, which is not among the sources; §4.3/§9 of the design describe
it as a closed enumeration of exactly the three axis tags ALPHA (x-axis),
BETA (y-axis) and GAMMA (z-axis). -/
inductive AngleDir where
  | ALPHA
  | BETA
  | GAMMA
deriving DecidableEq

namespace Vector3D

/-- `Vector3D::Vector3D(double, double, double)` (`vector3d.hpp:37-41`). -/
noncomputable def mk3 (x y z : ℝ) : Vector 3 ℝ :=
  ⟨![x, y, z]⟩

/-- `Vector3D::x()` (`vector3d.hpp:59`): `m_components[0]`. -/
def x (v : Vector 3 ℝ) : ℝ := v.m_components 0

/-- `Vector3D::y()` (`vector3d.hpp:77`): `m_components[1]`. -/
def y (v : Vector 3 ℝ) : ℝ := v.m_components 1

/-- `Vector3D::z()` (`vector3d.hpp:95`): `m_components[2]`. -/
def z (v : Vector 3 ℝ) : ℝ := v.m_components 2

/-- `Vector3D::cross` (`vector3d.hpp:113-119`). -/
noncomputable def cross (a b : Vector 3 ℝ) : Vector 3 ℝ :=
  mk3 (y a * z b - z a * y b)
      (z a * x b - x a * z b)
      (x a * y b - y a * x b)

/-- `Vector3D::rotateAlpha` (`vector3d.hpp:238-252`): rotation about the x-axis. -/
noncomputable def rotateAlpha (v : Vector 3 ℝ) (ang : ℝ) : Vector 3 ℝ :=
  mk3 (x v)
      (y v * Real.cos ang - z v * Real.sin ang)
      (y v * Real.sin ang + z v * Real.cos ang)

/-- `Vector3D::rotateBeta` (`vector3d.hpp:257-272`): rotation about the y-axis. -/
noncomputable def rotateBeta (v : Vector 3 ℝ) (ang : ℝ) : Vector 3 ℝ :=
  mk3 (x v * Real.cos ang + z v * Real.sin ang)
      (y v)
      (-(x v) * Real.sin ang + z v * Real.cos ang)

/-- `Vector3D::rotateGamma` (`vector3d.hpp:277-291`): rotation about the z-axis. -/
noncomputable def rotateGamma (v : Vector 3 ℝ) (ang : ℝ) : Vector 3 ℝ :=
  mk3 (x v * Real.cos ang - y v * Real.sin ang)
      (x v * Real.sin ang + y v * Real.cos ang)
      (z v)

/-- `Vector3D::rotate<AngleDir>` (`vector3d.hpp:196-205`): the switch routes
ALPHA to `rotateAlpha`, BETA to `rotateBeta`, and the remaining tag (GAMMA, via
the `default:` case of a closed enumeration) to `rotateGamma`. -/
noncomputable def rotate (v : Vector 3 ℝ) (d : AngleDir) (ang : ℝ) : Vector 3 ℝ :=
  match d with
  | AngleDir.ALPHA => rotateAlpha v ang
  | AngleDir.BETA => rotateBeta v ang
  | AngleDir.GAMMA => rotateGamma v ang

end Vector3D

/-- C4: the axis-rotation dispatch routes each tag to exactly one axis formula —
ALPHA to the x-axis rotation (x fixed), BETA to the y-axis rotation (y fixed),
GAMMA to the z-axis rotation (z fixed) — and the tag type has no values besides
the three axis tags. -/
theorem rotate3_dispatch_spec :
    (∀ (v : Vector 3 ℝ) (θ : ℝ),
      (Vector3D.x (Vector3D.rotate v AngleDir.ALPHA θ) = Vector3D.x v
        ∧ Vector3D.y (Vector3D.rotate v AngleDir.ALPHA θ)
            = Vector3D.y v * Real.cos θ - Vector3D.z v * Real.sin θ
        ∧ Vector3D.z (Vector3D.rotate v AngleDir.ALPHA θ)
            = Vector3D.y v * Real.sin θ + Vector3D.z v * Real.cos θ)
      ∧ (Vector3D.x (Vector3D.rotate v AngleDir.BETA θ)
            = Vector3D.x v * Real.cos θ + Vector3D.z v * Real.sin θ
        ∧ Vector3D.y (Vector3D.rotate v AngleDir.BETA θ) = Vector3D.y v
        ∧ Vector3D.z (Vector3D.rotate v AngleDir.BETA θ)
            = -(Vector3D.x v) * Real.sin θ + Vector3D.z v * Real.cos θ)
      ∧ (Vector3D.x (Vector3D.rotate v AngleDir.GAMMA θ)
            = Vector3D.x v * Real.cos θ - Vector3D.y v * Real.sin θ
        ∧ Vector3D.y (Vector3D.rotate v AngleDir.GAMMA θ)
            = Vector3D.x v * Real.sin θ + Vector3D.y v * Real.cos θ
        ∧ Vector3D.z (Vector3D.rotate v AngleDir.GAMMA θ) = Vector3D.z v))
    ∧ (∀ d : AngleDir, d = AngleDir.ALPHA ∨ d = AngleDir.BETA ∨ d = AngleDir.GAMMA) := by
  refine ⟨fun v θ => ⟨⟨rfl, rfl, rfl⟩, ⟨rfl, rfl, rfl⟩, ⟨rfl, rfl, rfl⟩⟩, fun d => ?_⟩
  cases d
  · exact Or.inl rfl
  · exact Or.inr (Or.inl rfl)
  · exact Or.inr (Or.inr rfl)

/-- C6: the 3-D cross product is anti-commutative (`cross(a,b) = -cross(b,a)`
with `-` the component-wise unary negation of the core), and
`cross((2,3,5), (1,2,3)) = (-1,-1,1)`. -/
theorem cross_antisymm_spec :
    (∀ a b : Vector 3 ℝ, Vector3D.cross a b = Vector.neg (Vector3D.cross b a))
    ∧ Vector3D.cross (Vector3D.mk3 2 3 5) (Vector3D.mk3 1 2 3)
        = Vector3D.mk3 (-1) (-1) 1 := by
  constructor
  · intro a b
    apply Vector.ext
    intro i
    fin_cases i <;>
      simp [Vector3D.cross, Vector.neg, Vector3D.mk3, Vector3D.x, Vector3D.y,
        Vector3D.z] <;> ring
  · apply Vector.ext
    intro i
    fin_cases i <;>
      · simp [Vector3D.cross, Vector3D.mk3, Vector3D.x, Vector3D.y, Vector3D.z]
        norm_num

/-- The modulus of `std::size_t` arithmetic on the usual 64-bit platform. -/
def SIZE_T_MOD : Nat := 2 ^ 64

/-- The sequence of `m_components` indices read by `Vector::toString`
(`vector.hpp:153-164`): the loop reads indices `0, 1, ..., (D-1)-1` (the bound
`D - 1` computed in `std::size_t`, i.e. `(D + 2^64 - 1) % 2^64`), and the final
statement reads index `D - 1` (same wrapping arithmetic). -/
def toStringAccessIndices (D : Nat) : List Nat :=
  List.range ((D + SIZE_T_MOD - 1) % SIZE_T_MOD) ++ [(D + SIZE_T_MOD - 1) % SIZE_T_MOD]

/-- C8: for every positive dimension representable in `size_t` the rendering
loop only reads in-bounds components (index < D), but at `D = 0` the bound
`D - 1` wraps around to `2^64 - 1` and `toString` reads component index
`2^64 - 1` of a zero-length array — an out-of-bounds access, refuting the
claim for `D = 0`. -/
theorem toString_access_spec :
    (∀ D : Nat, 1 ≤ D → D < SIZE_T_MOD → ∀ i ∈ toStringAccessIndices D, i < D)
    ∧ ((SIZE_T_MOD - 1) ∈ toStringAccessIndices 0 ∧ ¬ (SIZE_T_MOD - 1 < 0)) := by
  constructor
  · intro D h1 h2 i hi
    have hmod : (D + SIZE_T_MOD - 1) % SIZE_T_MOD = D - 1 := by
      unfold SIZE_T_MOD at h2 ⊢
      omega
    unfold toStringAccessIndices at hi
    rw [hmod] at hi
    rcases List.mem_append.mp hi with hr | hl
    · have := List.mem_range.mp hr
      omega
    · have := List.mem_singleton.mp hl
      omega
  · constructor
    · unfold toStringAccessIndices
      have hmod : (0 + SIZE_T_MOD - 1) % SIZE_T_MOD = SIZE_T_MOD - 1 := by
        unfold SIZE_T_MOD
        omega
      rw [hmod]
      exact List.mem_append_right _ (List.mem_singleton.mpr rfl)
    · omega

/-- Witness for the in-bounds half of the toString access spec at `D = 3`:
the accessed indices are exactly `[0, 1, 2]`, all below 3. -/
theorem toString_access_spec_witness :
    (1 ≤ 3 ∧ 3 < SIZE_T_MOD) ∧ ∀ i ∈ toStringAccessIndices 3, i < 3 := by
  have h1 : (1 : Nat) ≤ 3 := by norm_num
  have h2 : 3 < SIZE_T_MOD := by
    unfold SIZE_T_MOD
    norm_num
  exact ⟨⟨h1, h2⟩, toString_access_spec.1 3 h1 h2⟩

end svector
